import Mathlib

/-!
Shallow embedding of the ykpack CFG explorer (src/main.rs).

The program decodes MIR function bodies from an object file and emits, per
function, a DOT control-flow graph.  The embedding models each output line
structurally (`OutLine`): `write_edge_raw` becomes an `OutLine.edge`,
`style_node` an `OutLine.node`, and the fixed header/footer text `OutLine.raw`.
Machine integers (u32 block indices, u64/u32 DefId fields) are modelled as
`Nat`: the program only formats them, never does arithmetic on them, so
overflow cannot matter.  Rust's decimal `format!("{}", n)` is modelled by an
explicit fuel-structural decimal renderer `natToStr` (fuel `n+1` always
suffices), so that it both evaluates by `decide`/`rfl` and admits proofs.
-/

/-- Decimal digits of `n`, most significant first, with explicit fuel
(models Rust's `Display` for unsigned integers). -/
def natDigitsAux : Nat → Nat → List Char
  | 0, _ => []
  | fuel + 1, n =>
    if n < 10 then [Nat.digitChar n]
    else natDigitsAux fuel (n / 10) ++ [Nat.digitChar (n % 10)]

/-- Decimal digit list of `n`, most significant first. -/
def natDigits (n : Nat) : List Char := natDigitsAux (n + 1) n

/-- Decimal rendering of a machine integer, modelling `n.to_string()` /
`format!("\x7b\x7d", n)` in the Rust source. -/
def natToStr (n : Nat) : String := String.mk (natDigits n)

/-- Model of `ykpack::DefId` (used at src/main.rs:23-25): two unsigned integers. -/
structure DefId where
  crate_hash : Nat
  def_idx : Nat
deriving DecidableEq, Repr

/-- Model of `ykpack::CallOperand`: a resolved callee or an unknown one
(src/main.rs:146-149 matches `Fn(def_id)` and a catch-all `_`). -/
inductive CallOperand where
  | Fn (def_id : DefId)
  | Unknown
deriving DecidableEq, Repr

/-- Model of `ykpack::Terminator` as consumed by `write_edges` (src/main.rs:68-161).
Block indices are `Nat` (u32 in the source). -/
inductive Terminator where
  | Goto (target_bb : Nat)
  | FalseEdges (real_target_bb : Nat)
  | FalseUnwind (real_target_bb : Nat)
  | SwitchInt (target_bbs : List Nat)
  | Resume
  | Abort
  | Return
  | Unreachable
  | GeneratorDrop
  | Drop (target_bb : Nat) (unwind_bb : Option Nat)
  | DropAndReplace (target_bb : Nat) (unwind_bb : Option Nat)
  | Assert (target_bb : Nat) (cleanup_bb : Option Nat)
  | Yield (resume_bb : Nat) (drop_bb : Option Nat)
  | Call (operand : CallOperand) (cleanup_bb : Option Nat) (ret_bb : Option Nat)
deriving DecidableEq, Repr

/-- A basic block: statements are opaque, only their `Debug` rendering is
ever used (`format!("\x7b:?\x7d", stmt)` at src/main.rs:42), so each
statement is modelled by that rendered string. -/
structure BasicBlock where
  stmts : List String
  term : Terminator
deriving DecidableEq, Repr

/-- Model of `ykpack::Mir`: a function body with its `DefId` and its blocks,
indexed by position. -/
structure Mir where
  def_id : DefId
  blocks : List BasicBlock
deriving DecidableEq, Repr

/-- One emitted output line of the DOT description.  `edge` captures
`write_edge_raw` (src/main.rs:11-17), `node` captures `style_node`
(src/main.rs:27-37) with the label already resolved by `unwrap_or`, and
`raw` the fixed header/footer lines written directly by `graph`. -/
inductive OutLine where
  | edge (src_node : String) (dest_node : String) (edge_label : Option String)
  | node (node_name : String) (lbl : String) (attrs : Option String)
  | raw (s : String)
deriving DecidableEq, Repr

/-- Model of `write_edge_raw` (src/main.rs:11-17). -/
def write_edge_raw (src_node dest_node : String) (edge_label : Option String) : OutLine :=
  OutLine.edge src_node dest_node edge_label

/-- Model of `write_edge` (src/main.rs:19-21): renders both block indices in decimal. -/
def write_edge (src_node dest_node : Nat) (edge_label : Option String) : OutLine :=
  write_edge_raw (natToStr src_node) (natToStr dest_node) edge_label

/-- Model of `def_id_node_prefix` (src/main.rs:23-25): `"\x7b\x7d-\x7b\x7d"` of the
two DefId fields. -/
def def_id_node_prefix (d : DefId) : String :=
  natToStr d.crate_hash ++ "-" ++ natToStr d.def_idx

/-- Model of `style_node` (src/main.rs:27-37): when no label is given the node name
itself is the label (`label.unwrap_or(node_name)`). -/
def style_node (node_name : String) (lbl : Option String) (attrs : Option String) : OutLine :=
  OutLine.node node_name (lbl.getD node_name) attrs

/-- Model of `get_statements_text` (src/main.rs:39-46): joins the statements' debug
strings with a literal backslash-n (the two-character Rust string `"\\n"`). -/
def get_statements_text (blk : BasicBlock) : String :=
  String.intercalate "\\n" blk.stmts

/-- Model of `Context` (src/main.rs:168-170).  The `HashMap<String, usize>` is
modelled as a total function with default 0: `entry(p).or_default()` reads
the current count, 0 when the key is absent, which is observationally the
same. -/
structure Context where
  external_nodes : String → Nat

/-- Model of `Context::new` (src/main.rs:173-175). -/
def Context.new : Context := ⟨fun _ => 0⟩

/-- The label string minted for a pseudo node:
`format!("\x7b\x7d(\x7b\x7d)", node_prefix, count)` (src/main.rs:179). -/
def ext_label (pfx : String) (count : Nat) : String :=
  pfx ++ "(" ++ natToStr count ++ ")"

/-- Model of `Context::external_node_label` (src/main.rs:177-182): read the current
count for the prefix (0 if never seen), mint the label, bump the count. -/
def external_node_label (cx : Context) (pfx : String) : String × Context :=
  let count := cx.external_nodes pfx
  (ext_label pfx count,
   ⟨fun q => if q = pfx then count + 1 else cx.external_nodes q⟩)

/-- The big `match block.term` of `write_edges` (src/main.rs:68-161): the
lines it writes (pseudo-node styling and edges, in emission order), the
updated registry, and the terminator's display label. -/
def write_edges_inner (cx : Context) (src_bb : Nat) (block : BasicBlock) :
    List OutLine × Context × String :=
  let src_bb_str := natToStr src_bb
  match block.term with
  | .Goto target_bb =>
      ([write_edge src_bb target_bb none], cx, "goto")
  | .FalseEdges real_target_bb =>
      ([write_edge src_bb real_target_bb none], cx, "false edge")
  | .FalseUnwind real_target_bb =>
      ([write_edge src_bb real_target_bb none], cx, "false unwind")
  | .SwitchInt target_bbs =>
      (target_bbs.map (fun target_bb => write_edge src_bb target_bb none), cx, "switch_int")
  | .Resume =>
      let (resume_node, cx2) := external_node_label cx "resume"
      ([style_node resume_node none (some "shape=point, color=blue"),
        write_edge_raw src_bb_str resume_node none], cx2, "resume")
  | .Abort =>
      let (abort_node, cx2) := external_node_label cx "abort"
      ([style_node abort_node none (some "shape=point, color=red"),
        write_edge_raw src_bb_str abort_node none], cx2, "abort")
  | .Return =>
      let (ret_node, cx2) := external_node_label cx "ret"
      ([style_node ret_node none (some "shape=point"),
        write_edge_raw src_bb_str ret_node none], cx2, "ret")
  | .Unreachable =>
      let (unreach_node, cx2) := external_node_label cx "unreachable"
      ([style_node unreach_node none none,
        write_edge_raw src_bb_str unreach_node none], cx2, "unreachable")
  | .GeneratorDrop =>
      let (gen_drop_node, cx2) := external_node_label cx "gen drop"
      ([style_node gen_drop_node none none,
        write_edge_raw src_bb_str gen_drop_node none], cx2, "gen drop")
  | .Drop target_bb unwind_bb =>
      (write_edge src_bb target_bb none ::
        (match unwind_bb with
         | some u_bb => [write_edge src_bb u_bb (some "unwind")]
         | none => []), cx, "drop")
  | .DropAndReplace target_bb unwind_bb =>
      (write_edge src_bb target_bb none ::
        (match unwind_bb with
         | some u_bb => [write_edge src_bb u_bb (some "unwind")]
         | none => []), cx, "drop+replace")
  | .Assert target_bb cleanup_bb =>
      (write_edge src_bb target_bb none ::
        (match cleanup_bb with
         | some c_bb => [write_edge src_bb c_bb (some "unwind")]
         | none => []), cx, "assert")
  | .Yield target_bb except_bb =>
      (write_edge src_bb target_bb none ::
        (match except_bb with
         | some e_bb => [write_edge src_bb e_bb (some "drop")]
         | none => []), cx, "yield")
  | .Call operand cleanup_bb ret_bb =>
      let (target_node_str, cx2) :=
        match operand with
        | .Fn def_id => external_node_label cx ( def_id_node_prefix def_id)
        | .Unknown => external_node_label cx "???"
      ([style_node target_node_str none (some "fillcolor = lightblue1, style = filled"),
        write_edge_raw src_bb_str target_node_str none]
        ++ (match cleanup_bb with
            | some c_bb => [write_edge src_bb c_bb (some "cleanup")]
            | none => [])
        ++ (match ret_bb with
            | some r_bb => [write_edge_raw target_node_str (natToStr r_bb) none]
            | none => []), cx2, "call")

/-- Model of `write_edges` (src/main.rs:48-166): the terminator match, then the block's
own node declaration as a record `\x7bindex | statements | label\x7d`,
filled-box styled. -/
def write_edges (cx : Context) (src_bb : Nat) (block : BasicBlock) :
    List OutLine × Context :=
  let src_bb_str := natToStr src_bb
  let (lines, cx2, term_label) := write_edges_inner cx src_bb block
  let stmts_str := get_statements_text block
  (lines ++
    [style_node src_bb_str
      (some ("\x7b" ++ src_bb_str ++ " | " ++ stmts_str ++ " | " ++ term_label ++ "\x7d"))
      (some "shape = record, style=filled, fillcolor=beige")], cx2)

/-- The block loop of `graph` (src/main.rs:199-201): visit blocks in order,
threading the registry, numbering from the given index. -/
def emit_from (cx : Context) (bb_idx : Nat) : List BasicBlock → List OutLine
  | [] => []
  | bb_data :: rest =>
      let (lines, cx2) := write_edges cx bb_idx bb_data
      lines ++ emit_from cx2 (bb_idx + 1) rest

/-- The textual output of `graph` (src/main.rs:185-203): header, default
node shape, entry node and entry edge, the per-block lines with a fresh
registry, and the closing brace.  The `DefId` is used by the source only to
name the output files, never in the emitted text. -/
def graph_lines (mir : Mir) : List OutLine :=
  [OutLine.raw "digraph \"g\" \x7b",
   OutLine.raw "\tnode [ shape=box ]",
   style_node "__entry" (some "") (some "shape=point"),
   write_edge_raw "__entry" "0" none]
  ++ emit_from Context.new 0 mir.blocks
  ++ [OutLine.raw "\x7d"]

/-- Projection of an output-line list to its edge statements, in order. -/
def edgesOf : List OutLine → List (String × String × Option String)
  | [] => []
  | OutLine.edge s d l :: rest => (s, d, l) :: edgesOf rest
  | OutLine.node _ _ _ :: rest => edgesOf rest
  | OutLine.raw _ :: rest => edgesOf rest

/-- Projection of an output-line list to the names of declared nodes. -/
def nodeDecls : List OutLine → List String
  | [] => []
  | OutLine.node n _ _ :: rest => n :: nodeDecls rest
  | OutLine.edge _ _ _ :: rest => nodeDecls rest
  | OutLine.raw _ :: rest => nodeDecls rest

/-- The observable result of Rust's `Command::status()`: either the process
could not be spawned at all, or it ran and exited with some status code. -/
inductive ExitOutcome where
  | spawnErr (msg : String)
  | exited (code : Int)
deriving DecidableEq, Repr

/-- The renderer invocation of `graph` (src/main.rs:205-211):
`cmd.status().expect("dot failed")` turns a spawn failure into a fatal
panic carrying the underlying error, while a successful spawn yields the
exit status value, which the source then discards. -/
def renderer_status_check (st : ExitOutcome) : Except String Int :=
  match st with
  | .spawnErr e => .error ("dot failed: " ++ e)
  | .exited code => .ok code

/-- Model of `graph` (src/main.rs:185-216) at the level of observable effects: emit
the graph description, then make one blocking renderer call on it; a spawn
failure aborts the pass, otherwise the emitted description is retained. -/
def graph_run (mir : Mir) (renderer : List OutLine → ExitOutcome) :
    Except String (List OutLine) :=
  match renderer_status_check (renderer (graph_lines mir)) with
  | .error e => .error e
  | .ok _ => .ok (graph_lines mir)

/-- The decode loop of `process` (src/main.rs:224-228).  The lazy decoder is
modelled by the list of outcomes its successive `next()` calls would
produce: `dec.next().unwrap()` renders each record fully (via `graph`)
until the first decode error, which aborts the loop; already-produced
output is kept, later records are never reached. -/
def process_records : List (Except String Mir) → List (List OutLine) × Option String
  | [] => ([], none)
  | Except.error e :: _ => ([], some e)
  | Except.ok mir :: rest =>
      let (outs, err) := process_records rest
      (graph_lines mir :: outs, err)

/-- Fuel is irrelevant for `natDigitsAux` as long as it exceeds `n`. -/
theorem natDigitsAux_fuel : ∀ f1 f2 n, n < f1 → n < f2 →
    natDigitsAux f1 n = natDigitsAux f2 n := by
  intro f1
  induction f1 with
  | zero => intro f2 n h1 _; omega
  | succ f ih =>
    intro f2 n h1 h2
    cases f2 with
    | zero => omega
    | succ g =>
      simp only [natDigitsAux]
      by_cases h : n < 10
      · simp [h]
      · simp only [if_neg h]
        have hd : n / 10 < n := Nat.div_lt_self (by omega) (by omega)
        rw [ih g (n / 10) (by omega) (by omega)]

/-- Fuel-free unfolding of `natDigits`. -/
theorem natDigits_unfold (n : Nat) :
    natDigits n = if n < 10 then [Nat.digitChar n]
      else natDigits (n / 10) ++ [Nat.digitChar (n % 10)] := by
  unfold natDigits
  conv_lhs => rw [natDigitsAux]
  by_cases h : n < 10
  · simp [h]
  · simp only [if_neg h]
    have hd : n / 10 < n := Nat.div_lt_self (by omega) (by omega)
    rw [natDigitsAux_fuel n (n / 10 + 1) (n / 10) (by omega) (by omega)]

theorem natDigits_ne_nil (n : Nat) : natDigits n ≠ [] := by
  rw [natDigits_unfold]
  split <;> simp

theorem digitChar_lt10_ne_lparen : ∀ d < 10, Nat.digitChar d ≠ '(' := by decide

theorem digitChar_lt10_inj : ∀ a < 10, ∀ b < 10,
    Nat.digitChar a = Nat.digitChar b → a = b := by decide

/-- No decimal rendering contains an opening parenthesis. -/
theorem natDigits_no_lparen : ∀ n c, c ∈ natDigits n → c ≠ '(' := by
  intro n
  induction n using Nat.strong_induction_on with
  | _ n ih =>
    intro c hc
    rw [natDigits_unfold] at hc
    by_cases h : n < 10
    · rw [if_pos h] at hc
      simp only [List.mem_singleton] at hc
      subst hc
      exact digitChar_lt10_ne_lparen n h
    · rw [if_neg h] at hc
      rcases List.mem_append.mp hc with h1 | h1
      · exact ih (n / 10) (Nat.div_lt_self (by omega) (by omega)) c h1
      · simp only [List.mem_singleton] at h1
        subst h1
        exact digitChar_lt10_ne_lparen (n % 10) (Nat.mod_lt _ (by omega))

/-- Decimal rendering is injective. -/
theorem natDigits_inj : ∀ m n, natDigits m = natDigits n → m = n := by
  intro m
  induction m using Nat.strong_induction_on with
  | _ m ih =>
    intro n h
    rw [natDigits_unfold m, natDigits_unfold n] at h
    by_cases hm : m < 10 <;> by_cases hn : n < 10
    · rw [if_pos hm, if_pos hn] at h
      simp only [List.cons.injEq, and_true] at h
      exact digitChar_lt10_inj m hm n hn h
    · rw [if_pos hm, if_neg hn] at h
      have hlen := congrArg List.length h
      simp only [List.length_singleton, List.length_append] at hlen
      have hz : (natDigits (n / 10)).length = 0 := by omega
      exact absurd (List.length_eq_zero.mp hz) (natDigits_ne_nil _)
    · rw [if_neg hm, if_pos hn] at h
      have hlen := congrArg List.length h
      simp only [List.length_singleton, List.length_append] at hlen
      have hz : (natDigits (m / 10)).length = 0 := by omega
      exact absurd (List.length_eq_zero.mp hz) (natDigits_ne_nil _)
    · rw [if_neg hm, if_neg hn] at h
      have hr := congrArg List.reverse h
      simp only [List.reverse_append, List.reverse_singleton, List.singleton_append,
        List.cons.injEq, List.reverse_inj] at hr
      have e1 : m % 10 = n % 10 :=
        digitChar_lt10_inj _ (Nat.mod_lt _ (by omega)) _ (Nat.mod_lt _ (by omega)) hr.1
      have e2 : m / 10 = n / 10 := ih (m / 10) (Nat.div_lt_self (by omega) (by omega)) _ hr.2
      omega

/-- Splitting a character list at a marker that occurs in neither prefix. -/
theorem split_at_lparen : ∀ (xs ys us vs : List Char), '(' ∉ xs → '(' ∉ ys →
    xs ++ '(' :: us = ys ++ '(' :: vs → xs = ys ∧ us = vs := by
  intro xs
  induction xs with
  | nil =>
    intro ys us vs _ hy h
    cases ys with
    | nil =>
      simp only [List.nil_append, List.cons.injEq, true_and] at h
      exact ⟨rfl, h⟩
    | cons c ys2 =>
      simp only [List.nil_append, List.cons_append, List.cons.injEq] at h
      rw [← h.1] at hy
      simp at hy
  | cons c xs2 ih =>
    intro ys us vs hx hy h
    cases ys with
    | nil =>
      simp only [List.cons_append, List.nil_append, List.cons.injEq] at h
      rw [h.1] at hx
      simp at hx
    | cons d ys2 =>
      simp only [List.cons_append, List.cons.injEq] at h
      have hx2 : '(' ∉ xs2 := fun hm => hx (List.mem_cons_of_mem _ hm)
      have hy2 : '(' ∉ ys2 := fun hm => hy (List.mem_cons_of_mem _ hm)
      obtain ⟨h1, h2⟩ := ih ys2 us vs hx2 hy2 h.2
      exact ⟨by rw [h.1, h1], h2⟩

theorem ext_label_data (p : String) (c : Nat) :
    (ext_label p c).data = p.data ++ '(' :: (natDigits c ++ [')']) := by
  simp [ext_label, natToStr, String.data_append]

/-- Minted pseudo-node labels determine both their prefix and their count:
the count's decimal digits contain no opening parenthesis, so the label
splits uniquely at its last opening parenthesis. -/
theorem ext_label_inj (p1 p2 : String) (c1 c2 : Nat)
    (h : ext_label p1 c1 = ext_label p2 c2) : p1 = p2 ∧ c1 = c2 := by
  have hd : p1.data ++ '(' :: (natDigits c1 ++ [')'])
      = p2.data ++ '(' :: (natDigits c2 ++ [')']) := by
    rw [← ext_label_data, ← ext_label_data, h]
  have key : ∀ (A D : List Char),
      (A ++ '(' :: (D ++ [')'])).reverse = ')' :: (D.reverse ++ '(' :: A.reverse) := by
    intro A D
    simp [List.reverse_append, List.reverse_cons]
  have hr := congrArg List.reverse hd
  rw [key, key] at hr
  simp only [List.cons.injEq, true_and] at hr
  have hn1 : '(' ∉ (natDigits c1).reverse := by
    intro hm
    exact natDigits_no_lparen c1 '(' (List.mem_reverse.mp hm) rfl
  have hn2 : '(' ∉ (natDigits c2).reverse := by
    intro hm
    exact natDigits_no_lparen c2 '(' (List.mem_reverse.mp hm) rfl
  obtain ⟨e1, e2⟩ := split_at_lparen _ _ _ _ hn1 hn2 hr
  refine ⟨String.ext ?_, natDigits_inj c1 c2 ?_⟩
  · have h2 := congrArg List.reverse e2
    simpa using h2
  · have h1 := congrArg List.reverse e1
    simpa using h1

/-- Test driver for the registry: run a sequence of label requests against
a registry, returning the minted labels in request order. -/
def run_requests (cx : Context) : List String → List String
  | [] => []
  | p :: ps =>
      (external_node_label cx p).1 :: run_requests (external_node_label cx p).2 ps

theorem run_requests_replicate (p : String) : ∀ (N : Nat) (cx : Context),
    run_requests cx (List.replicate N p)
      = (List.range N).map (fun i => ext_label p (cx.external_nodes p + i)) := by
  intro N
  induction N with
  | zero => intro cx; simp [run_requests]
  | succ n ih =>
    intro cx
    rw [List.replicate_succ]
    simp only [run_requests]
    rw [ih, List.range_succ_eq_map]
    simp only [List.map_cons, List.map_map]
    congr 1
    apply List.map_congr_left
    intro i _
    have harith : (external_node_label cx p).2.external_nodes p + i
        = cx.external_nodes p + (i + 1) := by
      simp only [external_node_label, if_true]
      omega
    simp only [Function.comp_apply]
    rw [harith]

/-- Every label minted during a run is a label whose count is at least the
registry's current count for its prefix. -/
theorem run_requests_mem : ∀ (ps : List String) (cx : Context) (l : String),
    l ∈ run_requests cx ps → ∃ p c, l = ext_label p c ∧ cx.external_nodes p ≤ c := by
  intro ps
  induction ps with
  | nil => intro cx l h; simp [run_requests] at h
  | cons p ps ih =>
    intro cx l h
    simp only [run_requests, List.mem_cons] at h
    rcases h with h | h
    · exact ⟨p, cx.external_nodes p, h, le_refl _⟩
    · obtain ⟨q, c, e, hle⟩ := ih _ _ h
      refine ⟨q, c, e, ?_⟩
      have hmono : cx.external_nodes q ≤ (external_node_label cx p).2.external_nodes q := by
        by_cases hq : q = p <;> simp [external_node_label, hq]
      omega

/-- No two requests in one pass ever mint the same label. -/
theorem run_requests_nodup : ∀ (ps : List String) (cx : Context),
    (run_requests cx ps).Nodup := by
  intro ps
  induction ps with
  | nil => intro cx; simp [run_requests]
  | cons p ps ih =>
    intro cx
    simp only [run_requests, List.nodup_cons]
    refine ⟨?_, ih _⟩
    intro hmem
    obtain ⟨q, c, e, hle⟩ := run_requests_mem ps _ _ hmem
    obtain ⟨hpq, hc⟩ := ext_label_inj p q _ _ e
    subst hpq
    have hbump : (external_node_label cx p).2.external_nodes p
        = cx.external_nodes p + 1 := by
      simp [external_node_label]
    omega

theorem edgesOf_append (a b : List OutLine) :
    edgesOf (a ++ b) = edgesOf a ++ edgesOf b := by
  induction a with
  | nil => rfl
  | cons x xs ih => cases x <;> simp [edgesOf, ih]

theorem edgesOf_write_edge_map (src_bb : Nat) (ts : List Nat) :
    edgesOf (ts.map (fun t => write_edge src_bb t none))
      = ts.map (fun t => (natToStr src_bb, natToStr t, (none : Option String))) := by
  induction ts with
  | nil => rfl
  | cons t ts ih =>
    simp only [List.map_cons, write_edge, write_edge_raw, edgesOf] at ih ⊢
    rw [ih]

/-- The pseudo-node prefix the Call arm requests: derived from the resolved
callee's DefId, or the fixed "???" for an unknown callee (src/main.rs:146-149). -/
def call_pseudo_pfx : CallOperand → String
  | .Fn def_id => def_id_node_prefix def_id
  | .Unknown => "???"

/-- C2: from a fresh registry, requesting the same prefix N times yields
exactly prefix(0), ..., prefix(N-1) in request order; each call mints
prefix(count) and bumps exactly that prefix's counter by one, leaving every
other prefix untouched; and no two calls within one pass (any request
sequence) ever return the same label. -/
theorem C2_registry_contract (p : String) (N : Nat) (reqs : List String)
    (cx : Context) (q r : String) :
    run_requests Context.new (List.replicate N p)
        = (List.range N).map (fun i => ext_label p i)
    ∧ (external_node_label cx q).1 = ext_label q (cx.external_nodes q)
    ∧ (external_node_label cx q).2.external_nodes r
        = (if r = q then cx.external_nodes r + 1 else cx.external_nodes r)
    ∧ (run_requests Context.new reqs).Nodup := by
  refine ⟨?_, rfl, ?_, run_requests_nodup reqs _⟩
  · rw [run_requests_replicate]
    simp [Context.new]
  · by_cases h : r = q
    · subst h
      simp [external_node_label]
    · simp [external_node_label, h]

/-- C1: a Call terminator produces exactly one unlabeled edge from the
source block to the freshly minted pseudo node (prefix derived from the
callee's DefId when resolved, "???" otherwise), plus an edge labeled
"cleanup" from the source iff the cleanup target is present, plus an
unlabeled edge from the pseudo node to the return site iff present; the
display label is "call". -/
theorem C1_call_edges (cx : Context) (src_bb : Nat) (stmts : List String)
    (operand : CallOperand) (cleanup_bb ret_bb : Option Nat) :
    edgesOf (write_edges cx src_bb ⟨stmts, .Call operand cleanup_bb ret_bb⟩).1
      = (natToStr src_bb,
          ext_label (call_pseudo_pfx operand)
            (cx.external_nodes (call_pseudo_pfx operand)), none)
        :: ((match cleanup_bb with
             | some c_bb => [(natToStr src_bb, natToStr c_bb, some "cleanup")]
             | none => [])
          ++ (match ret_bb with
              | some r_bb => [(ext_label (call_pseudo_pfx operand)
                  (cx.external_nodes (call_pseudo_pfx operand)), natToStr r_bb, none)]
              | none => []))
    ∧ (write_edges_inner cx src_bb ⟨stmts, .Call operand cleanup_bb ret_bb⟩).2.2 = "call" := by
  constructor
  · cases operand <;> cases cleanup_bb <;> cases ret_bb <;>
      simp [write_edges, write_edges_inner, edgesOf_append, edgesOf, write_edge,
        write_edge_raw, style_node, external_node_label, call_pseudo_pfx]
  · cases operand <;> rfl

/-- C3: a SwitchInt terminator produces one unlabeled edge per entry of its
target list, in list order, without deduplication (targets [2,2,3] give two
edges to block 2 and one to block 3); the display label is "switch_int". -/
theorem C3_switch_int_edges (cx : Context) (src_bb : Nat) (stmts : List String)
    (target_bbs : List Nat) :
    edgesOf (write_edges cx src_bb ⟨stmts, .SwitchInt target_bbs⟩).1
      = target_bbs.map (fun t => (natToStr src_bb, natToStr t, (none : Option String)))
    ∧ (write_edges_inner cx src_bb ⟨stmts, .SwitchInt target_bbs⟩).2.2 = "switch_int"
    ∧ edgesOf (write_edges cx src_bb ⟨stmts, .SwitchInt [2, 2, 3]⟩).1
      = [(natToStr src_bb, "2", none), (natToStr src_bb, "2", none),
         (natToStr src_bb, "3", none)] := by
  have hmap : ∀ ts : List Nat,
      edgesOf (write_edges cx src_bb ⟨stmts, .SwitchInt ts⟩).1
        = ts.map (fun t => (natToStr src_bb, natToStr t, (none : Option String))) := by
    intro ts
    simp [write_edges, write_edges_inner, edgesOf_append, edgesOf, style_node,
      edgesOf_write_edge_map]
  refine ⟨hmap target_bbs, rfl, ?_⟩
  rw [hmap [2, 2, 3]]
  have h2 : natToStr 2 = "2" := by decide
  have h3 : natToStr 3 = "3" := by decide
  simp [h2, h3]

/-- C6: Drop, DropAndReplace, Assert and Yield each produce one unlabeled
primary edge from the source to the primary target, plus a secondary edge
from the source iff the optional secondary target is present — labeled
"unwind" for the first three and "drop" for Yield — and nothing else; the
display labels are "drop", "drop+replace", "assert", "yield". -/
theorem C6_drop_assert_yield_edges (cx : Context) (src_bb : Nat)
    (stmts : List String) (target_bb : Nat) (u : Option Nat) :
    (edgesOf (write_edges cx src_bb ⟨stmts, .Drop target_bb u⟩).1
       = (natToStr src_bb, natToStr target_bb, none)
         :: (match u with
             | some u_bb => [(natToStr src_bb, natToStr u_bb, some "unwind")]
             | none => []))
    ∧ (edgesOf (write_edges cx src_bb ⟨stmts, .DropAndReplace target_bb u⟩).1
       = (natToStr src_bb, natToStr target_bb, none)
         :: (match u with
             | some u_bb => [(natToStr src_bb, natToStr u_bb, some "unwind")]
             | none => []))
    ∧ (edgesOf (write_edges cx src_bb ⟨stmts, .Assert target_bb u⟩).1
       = (natToStr src_bb, natToStr target_bb, none)
         :: (match u with
             | some c_bb => [(natToStr src_bb, natToStr c_bb, some "unwind")]
             | none => []))
    ∧ (edgesOf (write_edges cx src_bb ⟨stmts, .Yield target_bb u⟩).1
       = (natToStr src_bb, natToStr target_bb, none)
         :: (match u with
             | some e_bb => [(natToStr src_bb, natToStr e_bb, some "drop")]
             | none => []))
    ∧ (write_edges_inner cx src_bb ⟨stmts, .Drop target_bb u⟩).2.2 = "drop"
    ∧ (write_edges_inner cx src_bb ⟨stmts, .DropAndReplace target_bb u⟩).2.2 = "drop+replace"
    ∧ (write_edges_inner cx src_bb ⟨stmts, .Assert target_bb u⟩).2.2 = "assert"
    ∧ (write_edges_inner cx src_bb ⟨stmts, .Yield target_bb u⟩).2.2 = "yield" := by
  refine ⟨?_, ?_, ?_, ?_, rfl, rfl, rfl, rfl⟩ <;>
    cases u <;>
      simp [write_edges, write_edges_inner, edgesOf_append, edgesOf, write_edge,
        write_edge_raw, style_node]

/-- C5: each of Resume, Abort, Return, Unreachable and GeneratorDrop
produces exactly one unlabeled edge from the source block to a pseudo node
freshly minted for that occurrence, with prefixes (and display labels)
"resume", "abort", "ret", "unreachable" and "gen drop"; a second Return
rendered with the registry state left by a first one gets a distinct
pseudo node; and the two-block body (Goto 1; Return) emits exactly the
edges entry→0, 0→1 and 1→ret(0), all unlabeled. -/
theorem C5_sink_pseudo_edges (cx : Context) (src_bb : Nat) (stmts : List String)
    (d : DefId) :
    (edgesOf (write_edges cx src_bb ⟨stmts, .Resume⟩).1
       = [(natToStr src_bb, ext_label "resume" (cx.external_nodes "resume"), none)])
    ∧ (edgesOf (write_edges cx src_bb ⟨stmts, .Abort⟩).1
       = [(natToStr src_bb, ext_label "abort" (cx.external_nodes "abort"), none)])
    ∧ (edgesOf (write_edges cx src_bb ⟨stmts, .Return⟩).1
       = [(natToStr src_bb, ext_label "ret" (cx.external_nodes "ret"), none)])
    ∧ (edgesOf (write_edges cx src_bb ⟨stmts, .Unreachable⟩).1
       = [(natToStr src_bb, ext_label "unreachable" (cx.external_nodes "unreachable"), none)])
    ∧ (edgesOf (write_edges cx src_bb ⟨stmts, .GeneratorDrop⟩).1
       = [(natToStr src_bb, ext_label "gen drop" (cx.external_nodes "gen drop"), none)])
    ∧ (write_edges_inner cx src_bb ⟨stmts, .Resume⟩).2.2 = "resume"
    ∧ (write_edges_inner cx src_bb ⟨stmts, .Abort⟩).2.2 = "abort"
    ∧ (write_edges_inner cx src_bb ⟨stmts, .Return⟩).2.2 = "ret"
    ∧ (write_edges_inner cx src_bb ⟨stmts, .Unreachable⟩).2.2 = "unreachable"
    ∧ (write_edges_inner cx src_bb ⟨stmts, .GeneratorDrop⟩).2.2 = "gen drop"
    ∧ ext_label "ret" ((write_edges cx src_bb ⟨stmts, .Return⟩).2.external_nodes "ret")
        ≠ ext_label "ret" (cx.external_nodes "ret")
    ∧ edgesOf (graph_lines ⟨d, [⟨[], .Goto 1⟩, ⟨[], .Return⟩]⟩)
        = [("__entry", "0", none), ("0", "1", none),
           ("1", ext_label "ret" 0, none)] := by
  refine ⟨?_, ?_, ?_, ?_, ?_, rfl, rfl, rfl, rfl, rfl, ?_, ?_⟩
  · simp [write_edges, write_edges_inner, edgesOf_append, edgesOf, write_edge_raw,
      style_node, external_node_label]
  · simp [write_edges, write_edges_inner, edgesOf_append, edgesOf, write_edge_raw,
      style_node, external_node_label]
  · simp [write_edges, write_edges_inner, edgesOf_append, edgesOf, write_edge_raw,
      style_node, external_node_label]
  · simp [write_edges, write_edges_inner, edgesOf_append, edgesOf, write_edge_raw,
      style_node, external_node_label]
  · simp [write_edges, write_edges_inner, edgesOf_append, edgesOf, write_edge_raw,
      style_node, external_node_label]
  · intro h
    obtain ⟨-, hc⟩ := ext_label_inj _ _ _ _ h
    have hbump : (write_edges cx src_bb ⟨stmts, .Return⟩).2.external_nodes "ret"
        = cx.external_nodes "ret" + 1 := by
      simp [write_edges, write_edges_inner, external_node_label]
    omega
  · rfl

/-- Fallback block for positional indexing in statements (never reached at
in-range indices). -/
def default_block : BasicBlock := ⟨[], Terminator.Return⟩

/-- The registry state after rendering a list of blocks starting at a given
index: the state `emit_from` threads through `write_edges`. -/
def ctx_thread (cx : Context) (bb_idx : Nat) : List BasicBlock → Context
  | [] => cx
  | bb :: rest => ctx_thread (write_edges cx bb_idx bb).2 (bb_idx + 1) rest

/-- The block loop, re-expressed positionally: block `k` is rendered with
index `i + k` and with the registry state accumulated over blocks `0..k-1`. -/
theorem emit_from_index : ∀ (bs : List BasicBlock) (cx : Context) (i : Nat),
    emit_from cx i bs
      = ((List.range bs.length).map (fun k =>
          (write_edges (ctx_thread cx i (bs.take k)) (i + k)
            (bs.getD k default_block)).1)).flatten := by
  intro bs
  induction bs with
  | nil => intro cx i; rfl
  | cons b rest ih =>
    intro cx i
    simp only [emit_from, List.length_cons]
    rw [List.range_succ_eq_map]
    simp only [List.map_cons, List.map_map, List.flatten_cons]
    congr 1
    rw [ih (write_edges cx i b).2 (i + 1)]
    congr 1
    apply List.map_congr_left
    intro k _
    simp only [Function.comp_apply, List.take_succ_cons, List.getD_cons_succ, ctx_thread,
      Nat.succ_eq_add_one]
    have harith : i + 1 + k = i + (k + 1) := by omega
    rw [harith]

/-- C4: the emitted description is, in order: the digraph header with the
default box node shape, the point-shaped entry node with one unlabeled edge
to block index 0, then for each block in strictly increasing index order
(each visited exactly once) that block's terminator lines followed by its
own node declaration — a three-part record of block index, joined statement
text and display label, styled as a filled record box — and finally the
closing brace. -/
theorem C4_graph_emission (mir : Mir) (cx : Context) (bb_idx : Nat) (b : BasicBlock) :
    graph_lines mir
      = [OutLine.raw "digraph \"g\" \x7b",
         OutLine.raw "\tnode [ shape=box ]",
         OutLine.node "__entry" "" (some "shape=point"),
         OutLine.edge "__entry" "0" none]
        ++ ((List.range mir.blocks.length).map (fun k =>
              (write_edges (ctx_thread Context.new 0 (mir.blocks.take k)) k
                (mir.blocks.getD k default_block)).1)).flatten
        ++ [OutLine.raw "\x7d"]
    ∧ (write_edges cx bb_idx b).1
      = (write_edges_inner cx bb_idx b).1
        ++ [OutLine.node (natToStr bb_idx)
             ("\x7b" ++ natToStr bb_idx ++ " | " ++ get_statements_text b ++ " | "
               ++ (write_edges_inner cx bb_idx b).2.2 ++ "\x7d")
             (some "shape = record, style=filled, fillcolor=beige")] := by
  constructor
  · rw [graph_lines, emit_from_index]
    simp [style_node, write_edge_raw]
  · rcases hsplit : write_edges_inner cx bb_idx b with ⟨l, c2, t⟩
    simp [write_edges, hsplit, style_node]

/-- The block's own node declaration contributes no edge, so the edges of a
block are exactly the edges of the terminator match. -/
theorem edgesOf_write_edges (cx : Context) (src_bb : Nat) (block : BasicBlock) :
    edgesOf (write_edges cx src_bb block).1
      = edgesOf (write_edges_inner cx src_bb block).1 := by
  rcases hsplit : write_edges_inner cx src_bb block with ⟨l, c2, t⟩
  simp [write_edges, hsplit, edgesOf_append, style_node, edgesOf]

/-- C7 counterexample: a SwitchInt terminator with an empty target list
produces an empty edge set, refuting "no terminator variant yields an empty
edge set". -/
theorem C7_counterexample :
    edgesOf (write_edges Context.new 0 ⟨[], Terminator.SwitchInt []⟩).1 = [] := by
  rfl

/-- C7 amended: every terminator produces at least one primary edge or
pseudo-edge, except that a SwitchInt with an empty target list produces
none — so the lower bound holds whenever a SwitchInt terminator has a
nonempty target list. -/
theorem C7_amended (cx : Context) (src_bb : Nat) (block : BasicBlock)
    (h : ∀ tbs, block.term = Terminator.SwitchInt tbs → tbs ≠ []) :
    1 ≤ (edgesOf (write_edges cx src_bb block).1).length := by
  obtain ⟨stmts, term⟩ := block
  cases term with
  | Goto t =>
    simp [edgesOf_write_edges, write_edges_inner, edgesOf, write_edge, write_edge_raw]
  | FalseEdges t =>
    simp [edgesOf_write_edges, write_edges_inner, edgesOf, write_edge, write_edge_raw]
  | FalseUnwind t =>
    simp [edgesOf_write_edges, write_edges_inner, edgesOf, write_edge, write_edge_raw]
  | SwitchInt tbs =>
    cases tbs with
    | nil => exact absurd rfl (h [] rfl)
    | cons t ts =>
      simp [edgesOf_write_edges, write_edges_inner, edgesOf_write_edge_map, edgesOf,
        write_edge, write_edge_raw]
  | Resume =>
    simp [edgesOf_write_edges, write_edges_inner, edgesOf, style_node, write_edge_raw,
      external_node_label]
  | Abort =>
    simp [edgesOf_write_edges, write_edges_inner, edgesOf, style_node, write_edge_raw,
      external_node_label]
  | Return =>
    simp [edgesOf_write_edges, write_edges_inner, edgesOf, style_node, write_edge_raw,
      external_node_label]
  | Unreachable =>
    simp [edgesOf_write_edges, write_edges_inner, edgesOf, style_node, write_edge_raw,
      external_node_label]
  | GeneratorDrop =>
    simp [edgesOf_write_edges, write_edges_inner, edgesOf, style_node, write_edge_raw,
      external_node_label]
  | Drop t u =>
    cases u <;>
      simp [edgesOf_write_edges, write_edges_inner, edgesOf, write_edge, write_edge_raw]
  | DropAndReplace t u =>
    cases u <;>
      simp [edgesOf_write_edges, write_edges_inner, edgesOf, write_edge, write_edge_raw]
  | Assert t u =>
    cases u <;>
      simp [edgesOf_write_edges, write_edges_inner, edgesOf, write_edge, write_edge_raw]
  | Yield t u =>
    cases u <;>
      simp [edgesOf_write_edges, write_edges_inner, edgesOf, write_edge, write_edge_raw]
  | Call op cu rb =>
    cases op <;> cases cu <;> cases rb <;>
      simp [edgesOf_write_edges, write_edges_inner, edgesOf, edgesOf_append, style_node,
        write_edge, write_edge_raw, external_node_label]

/-- Witness for the amended C7 at a concrete non-SwitchInt terminator. -/
theorem C7_amended_witness :
    (∀ tbs, (⟨[], Terminator.Return⟩ : BasicBlock).term = Terminator.SwitchInt tbs → tbs ≠ [])
    ∧ 1 ≤ (edgesOf (write_edges Context.new 0 ⟨[], Terminator.Return⟩).1).length :=
  ⟨fun _ hc => absurd hc (by simp),
   C7_amended Context.new 0 ⟨[], Terminator.Return⟩ (fun _ hc => absurd hc (by simp))⟩

/-- C8 counterexample: a renderer that runs but exits with status 1 does
not make the pass fail — the exit status value is dropped by the source, so
"non-zero exit is fatal" is false. -/
theorem C8_counterexample :
    graph_run ⟨⟨0, 0⟩, []⟩ (fun _ => ExitOutcome.exited 1)
      = Except.ok (graph_lines ⟨⟨0, 0⟩, []⟩) := rfl

/-- C8 amended: the renderer is invoked exactly once per pass (the outcome
depends on the renderer only through its result on the emitted description);
a missing renderer (spawn failure) is fatal and reported with the underlying
error; but the exit status of a renderer that did run is not checked — any
exit code, zero or not, lets the pass succeed. -/
theorem C8_renderer_amended (mir : Mir) (r : List OutLine → ExitOutcome)
    (e : String) (code : Int) :
    graph_run mir r = graph_run mir (fun _ => r (graph_lines mir))
    ∧ graph_run mir (fun _ => ExitOutcome.spawnErr e)
        = Except.error ("dot failed: " ++ e)
    ∧ graph_run mir (fun _ => ExitOutcome.exited code)
        = Except.ok (graph_lines mir) :=
  ⟨rfl, rfl, rfl⟩

/-- C9: when decoding record k+1 fails, the run reports that failure, the
first k functions are fully rendered and kept, and no later record is
attempted (the result does not depend on what follows the failing record);
a fully good sequence renders every record with no failure. -/
theorem C9_decode_failure_halts (good : List Mir) (e : String)
    (rest : List (Except String Mir)) :
    process_records (good.map Except.ok ++ Except.error e :: rest)
      = (good.map graph_lines, some e)
    ∧ process_records (good.map Except.ok) = (good.map graph_lines, none) := by
  constructor
  · induction good with
    | nil => rfl
    | cons m ms ih => simp [process_records, ih]
  · induction good with
    | nil => rfl
    | cons m ms ih => simp [process_records, ih]

/-- C10: a Function Body with zero blocks still yields a syntactically
complete description — header, default shape, entry node, the unlabeled
entry edge to node id "0", and the closing brace — with no block nodes and
no terminator edges; the edge to "0" dangles since no node "0" is declared. -/
theorem C10_empty_body (d : DefId) :
    graph_lines ⟨d, []⟩
      = [OutLine.raw "digraph \"g\" \x7b",
         OutLine.raw "\tnode [ shape=box ]",
         OutLine.node "__entry" "" (some "shape=point"),
         OutLine.edge "__entry" "0" none,
         OutLine.raw "\x7d"]
    ∧ edgesOf (graph_lines ⟨d, []⟩) = [("__entry", "0", none)]
    ∧ nodeDecls (graph_lines ⟨d, []⟩) = ["__entry"]
    ∧ "0" ∉ nodeDecls (graph_lines ⟨d, []⟩) := by
  refine ⟨rfl, rfl, rfl, ?_⟩
  have hdecl : nodeDecls (graph_lines ⟨d, []⟩) = ["__entry"] := rfl
  rw [hdecl]
  decide
